import Mathlib

/-!
Verification of the Express adapter in `packages/remix-express/server.ts`.

The file embeds the adapter's functions (`createRemixHeaders`,
`createRemixRequest`, `sendRemixResponse`, and the middleware returned by
`createRequestHandler`) as pure Lean functions.  Effects on the host
(Express) response object are represented as an explicit trace of events,
and JavaScript exceptions / promise rejections are represented with
`Except`.  Types that the adapter consumes from other packages of the same
repository (the `Headers`/`Request`/`Response` classes of `@remix-run/node`)
are not part of the given sources; they are modelled from the spec where
noted.
-/

namespace RemixExpress

/-- A host (Express) request header value, as found in `req.headers`:
it is either missing (`undefined`), a single string, or an ordered
array of strings.  In JavaScript, `undefined` and the empty string are
falsy; every array (even the empty one) is truthy. -/
inductive HostHeaderValue where
  | absent
  | single (value : String)
  | multi (values : List String)
deriving DecidableEq, Repr

/-- JavaScript truthiness test `if (values)` applied to a header value:
`undefined` and `""` are falsy, every array is truthy. -/
def HostHeaderValue.isFalsy : HostHeaderValue → Bool
  | .absent => true
  | .single v => v == ""
  | .multi _ => false

/-- Modelled from the spec: the standardized multi-value header container
(the `Headers` class of `@remix-run/node`, whose source is not included).
Per the spec it is "a header container where one name may map to several
ordered values"; `raw` is its raw multi-value form, an insertion-ordered
association list from a name to its ordered list of values. -/
structure NodeHeaders where
  raw : List (String × List String)
deriving DecidableEq, Repr

/-- `append name value` on the raw form: if the name already has an entry,
add the value at the end of its list, otherwise add a new entry at the
end.  It never overwrites, only appends. -/
def rawAppend (k v : String) : List (String × List String) → List (String × List String)
  | [] => [(k, [v])]
  | (k', vs) :: rest =>
    if k' = k then (k', vs ++ [v]) :: rest else (k', vs) :: rawAppend k v rest

/-- `set name value` on the raw form: replace the name's values with the
single given value, adding a new entry at the end if the name is absent. -/
def rawSet (k v : String) : List (String × List String) → List (String × List String)
  | [] => [(k, [v])]
  | (k', vs) :: rest =>
    if k' = k then (k', [v]) :: rest else (k', vs) :: rawSet k v rest

def NodeHeaders.append (h : NodeHeaders) (k v : String) : NodeHeaders :=
  ⟨rawAppend k v h.raw⟩

def NodeHeaders.set (h : NodeHeaders) (k v : String) : NodeHeaders :=
  ⟨rawSet k v h.raw⟩

/-- The ordered list of values the container holds under `name`
(empty when the container has no entry for `name`). -/
def NodeHeaders.getValues (h : NodeHeaders) (name : String) : List String :=
  match h.raw.find? (fun kv => kv.1 == name) with
  | some kv => kv.2
  | none => []

/-- The names that have an entry in the raw form. -/
def rawKeys (l : List (String × List String)) : List String := l.map (·.1)

/-- The body of the `createRemixHeaders` loop for one host header entry:
a falsy value (`undefined` or `""`) is skipped, an array value has each
element appended in order, a (truthy) string value is set once. -/
def addHostHeader (headers : NodeHeaders) (kv : String × HostHeaderValue) : NodeHeaders :=
  match kv.2 with
  | .absent => headers
  | .single v => if v = "" then headers else headers.set kv.1 v
  | .multi vs => vs.foldl (fun h v => h.append kv.1 v) headers

/-- Embedding of `createRemixHeaders` (server.ts lines 81–99): fold
`addHostHeader` over the host header entries in order, starting from an
empty container. -/
def createRemixHeaders (requestHeaders : List (String × HostHeaderValue)) : NodeHeaders :=
  requestHeaders.foldl addHostHeader ⟨[]⟩

/-- A host (Express) request: the fields `createRemixRequest` reads.
`bodyBytes` is the byte sequence that the host request's readable body
stream delivers (empty when there is no body to read). -/
structure ExpressRequest where
  protocol : String
  hostHeader : String
  url : String
  method : String
  headers : List (String × HostHeaderValue)
  bodyBytes : List Nat
deriving Repr

/-- The relay `req.pipe(new PassThrough({ highWaterMark: n }))`: the byte
stream is delivered as a sequence of chunks of at most `n` bytes, the
bytes themselves untransformed.  `chunkList n l` splits `l` into
consecutive chunks of size `n` (a single chunk when `n = 0`, a case the
adapter never uses). -/
def chunkList : Nat → List α → List (List α)
  | _, [] => []
  | 0, l => [l]
  | n + 1, x :: xs =>
    (x :: xs).take (n + 1) :: chunkList (n + 1) ((x :: xs).drop (n + 1))
termination_by _ l => l.length
decreasing_by
  simp only [List.drop_succ_cons, List.length_drop, List.length_cons]
  omega

/-- Modelled from the spec: the standardized Request (the `Request` class
of `@remix-run/node`, whose source is not included): absolute URL, method,
immutable multi-value header set, optional readable body stream.  The body
stream is represented by the chunk sequence it delivers. -/
structure NodeRequest where
  url : String
  method : String
  headers : NodeHeaders
  body : Option (List (List Nat))
deriving Repr

/-- Embedding of `createRemixRequest` (server.ts lines 101–115): build the
absolute URL from protocol, host header and path+query, translate the
headers, and attach the host body stream through a `PassThrough` with
`highWaterMark` 16384 unless the method is GET or HEAD. -/
def createRemixRequest (req : ExpressRequest) : NodeRequest :=
  let origin := req.protocol ++ "://" ++ req.hostHeader
  { url := origin ++ req.url
    method := req.method
    headers := createRemixHeaders req.headers
    body :=
      if req.method ≠ "GET" ∧ req.method ≠ "HEAD" then
        some (chunkList 16384 req.bodyBytes)
      else
        none }

/-- The body of a standardized Response, matching the branching of
`sendRemixResponse`: an in-memory buffer (`Buffer.isBuffer`), a readable
stream exposing `pipe` (its delivered chunks, and the error it emits
mid-flight, if any), some other value exposing no `pipe`, or absent.
`E` is the type of JavaScript error values. -/
inductive NodeBody (E : Type) where
  | buffer (bytes : List Nat)
  | stream (chunks : List (List Nat)) (error : Option E)
  | nonPipeable
  | absent

/-- Modelled from the spec: the standardized Response (the `Response`
class of `@remix-run/node`, whose source is not included): integer status
code, multi-value header set, and a body that is an in-memory buffer, a
readable stream, or absent. -/
structure NodeResponse (E : Type) where
  status : Nat
  headers : NodeHeaders
  body : NodeBody E

/-- One write operation performed on the host (Express) response object:
`res.status(code)`, `res.append(name, value)`, a chunk written by a piped
stream, `res.end(buffer)` (a single write that also terminates), or
`res.end()` (terminate with no bytes). -/
inductive HostEvent where
  | setStatus (code : Nat)
  | appendHeader (name value : String)
  | writeBody (bytes : List Nat)
  | endWithBody (bytes : List Nat)
  | endResponse
deriving DecidableEq, Repr

/-- The writes `sendRemixResponse` performs for the response body
(server.ts lines 129–135).  A buffer is passed to `res.end` whole.  A
stream is piped: its chunks are written in order and, when the source
ends normally, `pipe` terminates the destination; when the source errors
mid-flight the destination is not terminated (node's `pipe` does not
forward errors) — the error itself is tracked separately, see
`MiddlewareResult.streamErr`.  Otherwise `res.end()` is called. -/
def sendBody {E : Type} : NodeBody E → List HostEvent
  | .buffer bs => [.endWithBody bs]
  | .stream chunks err =>
    chunks.map HostEvent.writeBody ++
      (match err with
       | none => [.endResponse]
       | some _ => [])
  | .nonPipeable => [.endResponse]
  | .absent => [.endResponse]

/-- Embedding of `sendRemixResponse` (server.ts lines 117–135) as the
trace of writes it performs on the host response: set the status, then
append every header value (each name's values in their raw order), then
write the body. -/
def sendRemixResponse {E : Type} (response : NodeResponse E) : List HostEvent :=
  HostEvent.setStatus response.status ::
    (response.headers.raw.flatMap fun kv => kv.2.map fun v => HostEvent.appendHeader kv.1 v)
    ++ sendBody response.body

/-- The mid-flight error of a response body, if its body is a stream that
errors while being piped.  The adapter installs no handler for it. -/
def bodyStreamError {E : Type} : NodeBody E → Option E
  | .stream _ err => err
  | _ => none

/-- The observable outcome of one run of the middleware returned by
`createRequestHandler`: whether `sendRemixResponse` was invoked, the
writes performed on the host response, the error passed to `next` (if
any), and the error emitted by the response body stream while piping
(if any) — the latter is not caught by the middleware's `try/catch`,
which has already returned when piping is underway. -/
structure MiddlewareResult (E : Type) where
  sendCalled : Bool
  events : List HostEvent
  nextErr : Option E
  streamErr : Option E
deriving Repr

/-- The load-context step of the middleware:
`typeof getLoadContext === "function" ? getLoadContext(req, res) : undefined`.
The host response handle passed to the callback carries no modelled
state, so the callback is a function of the host request alone. -/
def loadContextResult {E C : Type}
    (getLoadContext : Option (ExpressRequest → Except E C))
    (req : ExpressRequest) : Except E (Option C) :=
  match getLoadContext with
  | some f => (f req).map some
  | none => .ok none

/-- Embedding of the middleware returned by `createRequestHandler`
(server.ts lines 55–78).  A JavaScript function that may throw, and an
awaited promise that may reject, are both represented as `Except E`.
Inside `try`: build the standardized request, compute the load context
when a callback was supplied, await the runtime handler, and send its
response; any failure is caught and passed to `next`.  Being a total Lean
function, the middleware itself never throws, matching the source whose
whole body is wrapped in `try/catch`. -/
def expressMiddleware {E C : Type}
    (getLoadContext : Option (ExpressRequest → Except E C))
    (handleRequest : NodeRequest → Option C → Except E (NodeResponse E))
    (req : ExpressRequest) : MiddlewareResult E :=
  let request := createRemixRequest req
  match loadContextResult getLoadContext req with
  | .error e => { sendCalled := false, events := [], nextErr := some e, streamErr := none }
  | .ok loadContext =>
    match handleRequest request loadContext with
    | .error e => { sendCalled := false, events := [], nextErr := some e, streamErr := none }
    | .ok response =>
      { sendCalled := true
        events := sendRemixResponse response
        nextErr := none
        streamErr := bodyStreamError response.body }

/-- The phase of a host-response write: status (0), header (1), body (2).
HTTP requires the phases in this order. -/
def HostEvent.phase : HostEvent → Nat
  | .setStatus _ => 0
  | .appendHeader _ _ => 1
  | .writeBody _ => 2
  | .endWithBody _ => 2
  | .endResponse => 2

/-- The body bytes an event carries onto the wire. -/
def HostEvent.bytes : HostEvent → List Nat
  | .writeBody bs => bs
  | .endWithBody bs => bs
  | _ => []

/-- All body bytes a trace of host-response writes emits, in order. -/
def bodyBytesOf (t : List HostEvent) : List Nat :=
  t.flatMap HostEvent.bytes

/-- The header line an event appends, if it is a header append. -/
def headerLineOf : HostEvent → Option (String × String)
  | .appendHeader k v => some (k, v)
  | _ => none

/-- The header lines a trace of host-response writes appends, in order. -/
def headerLinesOf (t : List HostEvent) : List (String × String) :=
  t.filterMap headerLineOf

/-- The raw entry a single host header entry contributes to the
standardized container when its name is fresh: nothing for a falsy value
or an empty array, otherwise one entry under its name. -/
def entryRaw : String × HostHeaderValue → Option (String × List String)
  | (_, .absent) => none
  | (k, .single v) => if v = "" then none else some (k, [v])
  | (k, .multi vs) => if vs = [] then none else some (k, vs)

/-- The ordered values a list of header lines carries under one name. -/
def valuesUnder (name : String) (lines : List (String × String)) : List String :=
  (lines.filter fun kv => kv.1 == name).map (·.2)

/- ### Helper lemmas -/

theorem chunkList_flatten (n : Nat) (l : List α) : (chunkList n l).flatten = l := by
  induction n, l using chunkList.induct with
  | case1 n => simp [chunkList]
  | case2 l h => simp [chunkList]
  | case3 n x xs ih =>
    simp only [chunkList, List.flatten_cons, ih]
    exact List.take_append_drop _ _

theorem chunkList_bound (n : Nat) (l : List α) :
    ∀ c ∈ chunkList n l, 0 < n → c.length ≤ n := by
  induction n, l using chunkList.induct with
  | case1 n => simp [chunkList]
  | case2 l h => intro c hc hn; omega
  | case3 n x xs ih =>
    intro c hc hn
    simp only [chunkList, List.mem_cons] at hc
    rcases hc with rfl | hc
    · exact List.length_take_le _ _
    · exact ih c hc hn

theorem sendBody_phase {E : Type} (b : NodeBody E) : ∀ e ∈ sendBody b, e.phase = 2 := by
  intro e he
  cases b with
  | buffer bs => simp [sendBody] at he; subst he; rfl
  | stream chunks err =>
    cases err with
    | none =>
      simp only [sendBody, List.mem_append, List.mem_map] at he
      rcases he with ⟨c, -, rfl⟩ | he
      · rfl
      · simp at he; subst he; rfl
    | some e' =>
      simp only [sendBody, List.mem_append, List.mem_map] at he
      rcases he with ⟨c, -, rfl⟩ | he
      · rfl
      · simp at he
  | nonPipeable => simp [sendBody] at he; subst he; rfl
  | absent => simp [sendBody] at he; subst he; rfl

theorem headerEvents_phase (raw : List (String × List String)) :
    ∀ e ∈ raw.flatMap fun kv => kv.2.map fun v => HostEvent.appendHeader kv.1 v,
      e.phase = 1 := by
  intro e he
  simp only [List.mem_flatMap, List.mem_map] at he
  obtain ⟨kv, -, v, -, rfl⟩ := he
  rfl

theorem rawKeys_cons (a : String × List String) (l : List (String × List String)) :
    rawKeys (a :: l) = a.1 :: rawKeys l := rfl

theorem rawKeys_append (l₁ l₂ : List (String × List String)) :
    rawKeys (l₁ ++ l₂) = rawKeys l₁ ++ rawKeys l₂ := by
  simp [rawKeys]

theorem entryRaw_key {kv : String × HostHeaderValue} {p : String × List String}
    (h : entryRaw kv = some p) : p.1 = kv.1 := by
  obtain ⟨k, v⟩ := kv
  cases v with
  | absent => simp [entryRaw] at h
  | single s =>
    by_cases hs : s = ""
    · simp [entryRaw, hs] at h
    · simp [entryRaw, hs] at h
      subst h
      rfl
  | multi vs =>
    by_cases hv : vs = []
    · simp [entryRaw, hv] at h
    · simp [entryRaw, hv] at h
      subst h
      rfl

theorem rawAppend_fresh {k : String} (v : String) :
    ∀ {l : List (String × List String)}, k ∉ rawKeys l →
      rawAppend k v l = l ++ [(k, [v])] := by
  intro l
  induction l with
  | nil => intro _; rfl
  | cons a l ih =>
    intro h
    obtain ⟨k', vs⟩ := a
    rw [rawKeys_cons, List.mem_cons] at h
    push_neg at h
    have h1 : ¬(k' = k) := fun he => h.1 he.symm
    simp only [rawAppend, if_neg h1, ih h.2, List.cons_append]

theorem rawSet_fresh {k : String} (v : String) :
    ∀ {l : List (String × List String)}, k ∉ rawKeys l →
      rawSet k v l = l ++ [(k, [v])] := by
  intro l
  induction l with
  | nil => intro _; rfl
  | cons a l ih =>
    intro h
    obtain ⟨k', vs⟩ := a
    rw [rawKeys_cons, List.mem_cons] at h
    push_neg at h
    have h1 : ¬(k' = k) := fun he => h.1 he.symm
    simp only [rawSet, if_neg h1, ih h.2, List.cons_append]

theorem rawAppend_last {k : String} (v : String) (ws : List String) :
    ∀ {l : List (String × List String)}, k ∉ rawKeys l →
      rawAppend k v (l ++ [(k, ws)]) = l ++ [(k, ws ++ [v])] := by
  intro l
  induction l with
  | nil => intro _; simp [rawAppend]
  | cons a l ih =>
    intro h
    obtain ⟨k', vs⟩ := a
    rw [rawKeys_cons, List.mem_cons] at h
    push_neg at h
    have h1 : ¬(k' = k) := fun he => h.1 he.symm
    simp only [List.cons_append, rawAppend, if_neg h1, List.append_eq, ih h.2]

theorem appendRun_raw (k : String) (vs : List String) :
    ∀ (ws : List String) {l : List (String × List String)}, k ∉ rawKeys l →
      (vs.foldl (fun h v => NodeHeaders.append h k v) ⟨l ++ [(k, ws)]⟩).raw =
        l ++ [(k, ws ++ vs)] := by
  induction vs with
  | nil => intro ws l _; simp
  | cons v vs ih =>
    intro ws l h
    rw [List.foldl_cons]
    have hstep : NodeHeaders.append ⟨l ++ [(k, ws)]⟩ k v = ⟨l ++ [(k, ws ++ [v])]⟩ := by
      simp [NodeHeaders.append, rawAppend_last v ws h]
    rw [hstep, ih (ws ++ [v]) h]
    simp

theorem appendAll_raw (k : String) (vs : List String)
    {l : List (String × List String)} (h : k ∉ rawKeys l) :
    (vs.foldl (fun h v => NodeHeaders.append h k v) ⟨l⟩).raw =
      l ++ (if vs = [] then [] else [(k, vs)]) := by
  cases vs with
  | nil => simp
  | cons v vs =>
    rw [List.foldl_cons]
    have hstep : NodeHeaders.append ⟨l⟩ k v = ⟨l ++ [(k, [v])]⟩ := by
      simp [NodeHeaders.append, rawAppend_fresh v h]
    rw [hstep, appendRun_raw k vs [v] h]
    simp

theorem addHostHeader_raw (acc : NodeHeaders) (kv : String × HostHeaderValue)
    (h : kv.1 ∉ rawKeys acc.raw) :
    (addHostHeader acc kv).raw = acc.raw ++ (entryRaw kv).toList := by
  obtain ⟨k, v⟩ := kv
  cases v with
  | absent => simp [addHostHeader, entryRaw]
  | single s =>
    by_cases hs : s = ""
    · simp [addHostHeader, entryRaw, hs]
    · simp [addHostHeader, entryRaw, hs, NodeHeaders.set, rawSet_fresh s h]
  | multi vs =>
    by_cases hv : vs = []
    · simp [addHostHeader, entryRaw, hv]
    · have := appendAll_raw k vs (l := acc.raw) h
      simp only [addHostHeader, entryRaw]
      rw [if_neg hv] at this ⊢
      simpa using this

theorem foldl_addHostHeader_raw :
    ∀ (hs : List (String × HostHeaderValue)) (acc : NodeHeaders),
      (∀ k ∈ hs.map (·.1), k ∉ rawKeys acc.raw) →
      (hs.map (·.1)).Nodup →
      (hs.foldl addHostHeader acc).raw = acc.raw ++ hs.filterMap entryRaw := by
  intro hs
  induction hs with
  | nil => intro acc _ _; simp
  | cons kv hs ih =>
    intro acc hdisj hnodup
    rw [List.map_cons, List.nodup_cons] at hnodup
    rw [List.foldl_cons]
    have hk : kv.1 ∉ rawKeys acc.raw := hdisj kv.1 (by simp)
    have hraw := addHostHeader_raw acc kv hk
    have hdisj' : ∀ k ∈ hs.map (·.1), k ∉ rawKeys (addHostHeader acc kv).raw := by
      intro k hkmem
      rw [hraw, rawKeys_append, List.mem_append]
      rintro (hmem | hmem)
      · exact hdisj k (by simp [hkmem]) hmem
      · cases he : entryRaw kv with
        | none => rw [he] at hmem; simp [rawKeys] at hmem
        | some p =>
          rw [he] at hmem
          simp [rawKeys] at hmem
          rw [hmem, entryRaw_key he] at hkmem
          exact hnodup.1 hkmem
    rw [ih (addHostHeader acc kv) hdisj' hnodup.2, hraw, List.append_assoc]
    cases he : entryRaw kv with
    | none => simp [List.filterMap_cons, he]
    | some p => simp [List.filterMap_cons, he]

theorem createRemixHeaders_raw (hs : List (String × HostHeaderValue))
    (hnodup : (hs.map (·.1)).Nodup) :
    (createRemixHeaders hs).raw = hs.filterMap entryRaw := by
  have := foldl_addHostHeader_raw hs ⟨[]⟩ (by simp [rawKeys]) hnodup
  simpa [createRemixHeaders] using this

theorem trace_filter_body {E : Type} (resp : NodeResponse E) :
    (sendRemixResponse resp).filter (fun e => e.phase == 2) = sendBody resp.body := by
  have h1 : ((resp.headers.raw.flatMap fun kv =>
      kv.2.map fun v => HostEvent.appendHeader kv.1 v).filter fun e => e.phase == 2) = [] := by
    rw [List.filter_eq_nil_iff]
    intro e he
    have := headerEvents_phase resp.headers.raw e he
    simp [this]
  have h2 : ((sendBody resp.body).filter fun e => e.phase == 2) = sendBody resp.body := by
    rw [List.filter_eq_self]
    intro e he
    simp [sendBody_phase resp.body e he]
  have h0 : ∀ c : Nat, (HostEvent.setStatus c).phase = 0 := fun _ => rfl
  simp [sendRemixResponse, List.filter_append, List.filter_cons, h0, h1, h2]

theorem trace_filter_header {E : Type} (resp : NodeResponse E) :
    (sendRemixResponse resp).filter (fun e => e.phase == 1) =
      resp.headers.raw.flatMap fun kv => kv.2.map fun v => HostEvent.appendHeader kv.1 v := by
  have h1 : ((resp.headers.raw.flatMap fun kv =>
      kv.2.map fun v => HostEvent.appendHeader kv.1 v).filter fun e => e.phase == 1) =
      resp.headers.raw.flatMap fun kv => kv.2.map fun v => HostEvent.appendHeader kv.1 v := by
    rw [List.filter_eq_self]
    intro e he
    simp [headerEvents_phase resp.headers.raw e he]
  have h2 : ((sendBody resp.body).filter fun e => e.phase == 1) = [] := by
    rw [List.filter_eq_nil_iff]
    intro e he
    simp [sendBody_phase resp.body e he]
  have h0 : ∀ c : Nat, (HostEvent.setStatus c).phase = 0 := fun _ => rfl
  simp [sendRemixResponse, List.filter_append, List.filter_cons, h0, h1, h2]

theorem trace_bodyBytes {E : Type} (resp : NodeResponse E) :
    bodyBytesOf (sendRemixResponse resp) = bodyBytesOf (sendBody resp.body) := by
  simp only [bodyBytesOf, sendRemixResponse, List.flatMap_cons, List.flatMap_append]
  have h0 : HostEvent.bytes (HostEvent.setStatus resp.status) = [] := rfl
  have h1 : (resp.headers.raw.flatMap fun kv =>
      kv.2.map fun v => HostEvent.appendHeader kv.1 v).flatMap HostEvent.bytes = [] := by
    rw [List.flatMap_eq_nil_iff]
    intro e he
    have := headerEvents_phase resp.headers.raw e he
    cases e <;> simp_all [HostEvent.bytes, HostEvent.phase]
  rw [h0, h1]
  rfl

theorem filterMap_headerEvents :
    ∀ raw : List (String × List String),
      (raw.flatMap fun kv => kv.2.map fun v => HostEvent.appendHeader kv.1 v).filterMap
          headerLineOf =
        raw.flatMap fun kv => kv.2.map fun v => (kv.1, v) := by
  intro raw
  induction raw with
  | nil => rfl
  | cons kv raw ih =>
    simp only [List.flatMap_cons, List.filterMap_append, ih]
    congr 1
    induction kv.2 with
    | nil => rfl
    | cons v vs ih2 =>
      simp only [List.map_cons, List.filterMap_cons, headerLineOf, ih2]

theorem headerLinesOf_send {E : Type} (resp : NodeResponse E) :
    headerLinesOf (sendRemixResponse resp) =
      resp.headers.raw.flatMap fun kv => kv.2.map fun v => (kv.1, v) := by
  have h1 : (sendBody resp.body).filterMap headerLineOf = [] := by
    rw [List.filterMap_eq_nil_iff]
    intro e he
    have hph := sendBody_phase resp.body e he
    cases e <;> first | rfl | simp [HostEvent.phase] at hph
  simp only [headerLinesOf, sendRemixResponse, List.filterMap_cons, List.filterMap_append,
    headerLineOf, h1, filterMap_headerEvents, List.append_nil]

theorem valuesUnder_append (name : String) (a b : List (String × String)) :
    valuesUnder name (a ++ b) = valuesUnder name a ++ valuesUnder name b := by
  simp [valuesUnder]

theorem valuesUnder_entry (name k : String) (vs : List String) :
    valuesUnder name (vs.map fun v => (k, v)) = if k = name then vs else [] := by
  by_cases h : k = name
  · subst h
    rw [if_pos rfl]
    induction vs with
    | nil => rfl
    | cons v vs ih =>
      simp only [valuesUnder, List.map_cons] at ih ⊢
      rw [List.filter_cons_of_pos (by simp), List.map_cons, ih]
  · rw [if_neg h]
    induction vs with
    | nil => rfl
    | cons v vs ih =>
      simp only [valuesUnder, List.map_cons] at ih ⊢
      rw [List.filter_cons_of_neg (by simp [h]), ih]

theorem valuesUnder_raw (name : String) :
    ∀ raw : List (String × List String),
      valuesUnder name (raw.flatMap fun kv => kv.2.map fun v => (kv.1, v)) =
        raw.flatMap fun kv => if kv.1 = name then kv.2 else [] := by
  intro raw
  induction raw with
  | nil => rfl
  | cons kv raw ih =>
    rw [List.flatMap_cons, valuesUnder_append, ih, List.flatMap_cons, valuesUnder_entry]

theorem flatMap_nil_of_no_key (name : String) :
    ∀ hs : List (String × HostHeaderValue), name ∉ hs.map (·.1) →
      ((hs.filterMap entryRaw).flatMap fun kv => if kv.1 = name then kv.2 else []) = [] := by
  intro hs
  induction hs with
  | nil => intro _; rfl
  | cons kv hs ih =>
    intro h
    rw [List.map_cons, List.mem_cons] at h
    push_neg at h
    cases he : entryRaw kv with
    | none => simpa [List.filterMap_cons, he] using ih h.2
    | some p =>
      have hp : p.1 ≠ name := by
        rw [entryRaw_key he]
        exact fun hx => h.1 hx.symm
      simpa [List.filterMap_cons, he, List.flatMap_cons, hp] using ih h.2

theorem headerLines_multi :
    ∀ (hs : List (String × HostHeaderValue)) (name : String) (vs : List String),
      (hs.map (·.1)).Nodup → (name, HostHeaderValue.multi vs) ∈ hs →
      ((hs.filterMap entryRaw).flatMap fun kv => if kv.1 = name then kv.2 else []) = vs := by
  intro hs
  induction hs with
  | nil => intro name vs _ hmem; simp at hmem
  | cons kv hs ih =>
    intro name vs hnodup hmem
    rw [List.map_cons, List.nodup_cons] at hnodup
    rcases List.mem_cons.1 hmem with heq | hmem'
    · have hrest : ((hs.filterMap entryRaw).flatMap
          fun kv => if kv.1 = name then kv.2 else []) = [] := by
        apply flatMap_nil_of_no_key
        rw [← heq] at hnodup
        exact hnodup.1
      by_cases hv : vs = []
      · simp [List.filterMap_cons, ← heq, entryRaw, hv, hrest]
      · simp [List.filterMap_cons, ← heq, entryRaw, hv, List.flatMap_cons, hrest]
    · have hname : name ∈ hs.map (·.1) :=
        List.mem_map.2 ⟨(name, .multi vs), hmem', rfl⟩
      have hk : kv.1 ≠ name := fun he => hnodup.1 (he ▸ hname)
      cases he : entryRaw kv with
      | none => simpa [List.filterMap_cons, he] using ih name vs hnodup.2 hmem'
      | some p =>
        have hp : p.1 ≠ name := by rw [entryRaw_key he]; exact hk
        simpa [List.filterMap_cons, he, List.flatMap_cons, hp] using
          ih name vs hnodup.2 hmem'

theorem key_unique :
    ∀ {hs : List (String × HostHeaderValue)}, (hs.map (·.1)).Nodup →
      ∀ {k : String} {a b : HostHeaderValue}, (k, a) ∈ hs → (k, b) ∈ hs → a = b := by
  intro hs
  induction hs with
  | nil => intro _ k a b ha _; simp at ha
  | cons kv hs ih =>
    intro hnodup k a b ha hb
    rw [List.map_cons, List.nodup_cons] at hnodup
    rcases List.mem_cons.1 ha with heqa | ha'
    · rcases List.mem_cons.1 hb with heqb | hb'
      · rw [← heqa] at heqb
        exact (Prod.mk.injEq _ _ _ _ ▸ heqb.symm).2
      · exact absurd (List.mem_map.2 ⟨(k, b), hb', by rw [← heqa]⟩) hnodup.1
    · rcases List.mem_cons.1 hb with heqb | hb'
      · exact absurd (List.mem_map.2 ⟨(k, a), ha', by rw [← heqb]⟩) hnodup.1
      · exact ih hnodup.2 ha' hb'

/- ### Claim theorems -/

/-- C2: for every host request whose method is GET or HEAD, the
standardized Request built by `createRemixRequest` has no body attached,
even when the host request object carries a readable body stream. -/
theorem createRemixRequest_getOrHead_noBody (req : ExpressRequest)
    (h : req.method = "GET" ∨ req.method = "HEAD") :
    (createRemixRequest req).body = none := by
  rcases h with h | h <;> simp [createRemixRequest, h]

theorem createRemixRequest_getOrHead_noBody_witness :
    ("GET" = "GET" ∨ "GET" = "HEAD") ∧
      (createRemixRequest
          { protocol := "http", hostHeader := "example.com", url := "/"
            method := "GET", headers := [], bodyBytes := [104, 105] }).body = none :=
  ⟨Or.inl rfl,
    createRemixRequest_getOrHead_noBody
      { protocol := "http", hostHeader := "example.com", url := "/"
        method := "GET", headers := [], bodyBytes := [104, 105] }
      (Or.inl rfl)⟩

/-- C8: for every host request whose method is neither GET nor HEAD and
whose body is non-empty, the standardized Request's body stream delivers
exactly the host request's body bytes, in order, undropped: the relay
chunks the bytes into pieces of at most 16384 but performs no
transformation (the concatenation of the chunks is the original byte
sequence). -/
theorem createRemixRequest_body_relay (req : ExpressRequest)
    (h1 : req.method ≠ "GET") (h2 : req.method ≠ "HEAD")
    (_h3 : req.bodyBytes ≠ []) :
    ∃ chunks, (createRemixRequest req).body = some chunks ∧
      chunks.flatten = req.bodyBytes ∧ ∀ c ∈ chunks, c.length ≤ 16384 := by
  refine ⟨chunkList 16384 req.bodyBytes, ?_, chunkList_flatten _ _,
    fun c hc => chunkList_bound _ _ c hc (by omega)⟩
  simp [createRemixRequest, h1, h2]

theorem createRemixRequest_body_relay_witness :
    ("POST" : String) ≠ "GET" ∧ ("POST" : String) ≠ "HEAD" ∧
      ([1, 2, 3] : List Nat) ≠ [] ∧
      ∃ chunks,
        (createRemixRequest
            { protocol := "http", hostHeader := "example.com", url := "/"
              method := "POST", headers := [], bodyBytes := [1, 2, 3] }).body = some chunks ∧
          chunks.flatten = [1, 2, 3] ∧ ∀ c ∈ chunks, c.length ≤ 16384 :=
  ⟨by decide, by decide, by decide,
    createRemixRequest_body_relay
      { protocol := "http", hostHeader := "example.com", url := "/"
        method := "POST", headers := [], bodyBytes := [1, 2, 3] }
      (by decide) (by decide) (by decide)⟩

/-- C5: when the standardized Response's body is an in-memory buffer of
bytes `bs`, the send path performs exactly one body-phase write on the
host response, namely `res.end(bs)` — a single write that also terminates
the response — and the bytes emitted are exactly `bs`. -/
theorem sendRemixResponse_buffer_single_write {E : Type} (resp : NodeResponse E)
    (bs : List Nat) (h : resp.body = .buffer bs) :
    (sendRemixResponse resp).filter (fun e => e.phase == 2) = [HostEvent.endWithBody bs] ∧
      bodyBytesOf (sendRemixResponse resp) = bs := by
  constructor
  · rw [trace_filter_body, h]
    rfl
  · rw [trace_bodyBytes, h]
    simp [sendBody, bodyBytesOf, HostEvent.bytes]

theorem sendRemixResponse_buffer_single_write_witness :
    (NodeBody.buffer [104, 105] : NodeBody Unit) = .buffer [104, 105] ∧
      (sendRemixResponse
            (E := Unit) ⟨200, ⟨[("content-type", ["text/plain"])]⟩, .buffer [104, 105]⟩).filter
          (fun e => e.phase == 2) = [HostEvent.endWithBody [104, 105]] ∧
      bodyBytesOf
          (sendRemixResponse
            (E := Unit) ⟨200, ⟨[("content-type", ["text/plain"])]⟩, .buffer [104, 105]⟩) =
        [104, 105] :=
  ⟨rfl,
    (sendRemixResponse_buffer_single_write
        (E := Unit) ⟨200, ⟨[("content-type", ["text/plain"])]⟩, .buffer [104, 105]⟩
        [104, 105] rfl).1,
    (sendRemixResponse_buffer_single_write
        (E := Unit) ⟨200, ⟨[("content-type", ["text/plain"])]⟩, .buffer [104, 105]⟩
        [104, 105] rfl).2⟩

/-- C9: when the standardized Response's body is present but neither a
buffer nor an object exposing `pipe`, the send path behaves exactly as if
the body were absent: the same trace, zero body bytes, and a single
body-phase operation `res.end()` terminating the response immediately. -/
theorem sendRemixResponse_nonPipeable_as_absent {E : Type} (s : Nat) (hd : NodeHeaders) :
    sendRemixResponse (E := E) ⟨s, hd, .nonPipeable⟩ =
        sendRemixResponse (E := E) ⟨s, hd, .absent⟩ ∧
      (sendRemixResponse (E := E) ⟨s, hd, .nonPipeable⟩).filter
          (fun e => e.phase == 2) = [HostEvent.endResponse] ∧
      bodyBytesOf (sendRemixResponse (E := E) ⟨s, hd, .nonPipeable⟩) = [] := by
  refine ⟨rfl, ?_, ?_⟩
  · rw [trace_filter_body]
    rfl
  · rw [trace_bodyBytes]
    rfl

theorem pairwise_phase_le_of_const {l : List HostEvent} {p : Nat}
    (h : ∀ e ∈ l, e.phase = p) : l.Pairwise fun a b => a.phase ≤ b.phase := by
  induction l with
  | nil => exact List.Pairwise.nil
  | cons a l ih =>
    refine List.Pairwise.cons (fun b hb => ?_) (ih fun e he => h e (List.mem_cons_of_mem a he))
    rw [h a (List.mem_cons_self a l), h b (List.mem_cons_of_mem a hb)]

theorem trace_phases_monotone {E : Type} (resp : NodeResponse E) :
    (sendRemixResponse resp).Pairwise fun a b => a.phase ≤ b.phase := by
  refine List.Pairwise.cons (fun b _ => ?_) ?_
  · exact Nat.zero_le _
  · refine (List.pairwise_append).2 ⟨?_, ?_, ?_⟩
    · exact pairwise_phase_le_of_const (headerEvents_phase resp.headers.raw)
    · exact pairwise_phase_le_of_const (sendBody_phase resp.body)
    · intro a ha b hb
      rw [headerEvents_phase resp.headers.raw a ha, sendBody_phase resp.body b hb]
      omega

/-- C4: the send path sets the status first, and the phases of its writes
never decrease along the trace: every status write precedes every header
append, and every header append precedes every body write or termination.
Moreover the header appends occur in exactly the raw order of the
standardized response's header set (each name's values in their original
order). -/
theorem sendRemixResponse_write_order {E : Type} (resp : NodeResponse E) :
    (sendRemixResponse resp).head? = some (HostEvent.setStatus resp.status) ∧
      ((sendRemixResponse resp).filter fun e => e.phase == 1) =
        (resp.headers.raw.flatMap fun kv => kv.2.map fun v => HostEvent.appendHeader kv.1 v) ∧
      ∀ i j (hi : i < (sendRemixResponse resp).length)
          (hj : j < (sendRemixResponse resp).length),
        (sendRemixResponse resp)[i].phase < (sendRemixResponse resp)[j].phase → i < j := by
  refine ⟨rfl, trace_filter_header resp, ?_⟩
  intro i j hi hj hlt
  by_contra hnot
  rcases Nat.lt_or_ge j i with hji | hij
  · have := (List.pairwise_iff_getElem.1 (trace_phases_monotone resp)) j i hj hi hji
    omega
  · have : i = j := by omega
    subst this
    exact Nat.lt_irrefl _ hlt

theorem sendRemixResponse_write_order_witness :
    (sendRemixResponse
          (E := Unit) ⟨200, ⟨[("content-type", ["text/plain"])]⟩, .buffer [111, 107]⟩).head? =
        some (HostEvent.setStatus 200) ∧
      (0 : Nat) < 1 :=
  ⟨(sendRemixResponse_write_order
      (E := Unit) ⟨200, ⟨[("content-type", ["text/plain"])]⟩, .buffer [111, 107]⟩).1,
    (sendRemixResponse_write_order
        (E := Unit) ⟨200, ⟨[("content-type", ["text/plain"])]⟩, .buffer [111, 107]⟩).2.2
      0 1 (by decide) (by decide) (by decide)⟩

/-- C1: on any failure of a step the middleware catches — the
load-context callback throwing, or the runtime handler's promise
rejecting — nothing is written to the host response and the failure value
is passed to `next`; and on every execution path exactly one of
"response-writing path invoked" and "error forwarded to next" holds,
never both and never neither. -/
theorem expressMiddleware_error_paths {E C : Type}
    (g : Option (ExpressRequest → Except E C))
    (h : NodeRequest → Option C → Except E (NodeResponse E))
    (req : ExpressRequest) :
    (∀ e, loadContextResult g req = .error e →
        (expressMiddleware g h req).events = [] ∧
          (expressMiddleware g h req).nextErr = some e ∧
          (expressMiddleware g h req).sendCalled = false) ∧
      (∀ ctx e, loadContextResult g req = .ok ctx →
          h (createRemixRequest req) ctx = .error e →
          (expressMiddleware g h req).events = [] ∧
            (expressMiddleware g h req).nextErr = some e ∧
            (expressMiddleware g h req).sendCalled = false) ∧
      Xor' ((expressMiddleware g h req).sendCalled = true)
        ((expressMiddleware g h req).nextErr.isSome = true) := by
  refine ⟨?_, ?_, ?_⟩
  · intro e he
    simp [expressMiddleware, he]
  · intro ctx e hctx hh
    simp [expressMiddleware, hctx, hh]
  · cases hctx : loadContextResult g req with
    | error e => simp [expressMiddleware, hctx, Xor']
    | ok ctx =>
      cases hh : h (createRemixRequest req) ctx with
      | error e => simp [expressMiddleware, hctx, hh, Xor']
      | ok resp => simp [expressMiddleware, hctx, hh, Xor']

theorem expressMiddleware_error_paths_witness :
    (expressMiddleware (E := Nat) (C := Nat)
          (some fun _ => Except.error 7)
          (fun _ _ => Except.ok ⟨200, ⟨[]⟩, .absent⟩)
          { protocol := "http", hostHeader := "example.com", url := "/"
            method := "GET", headers := [], bodyBytes := [] }).events = [] ∧
      (expressMiddleware (E := Nat) (C := Nat)
          (some fun _ => Except.error 7)
          (fun _ _ => Except.ok ⟨200, ⟨[]⟩, .absent⟩)
          { protocol := "http", hostHeader := "example.com", url := "/"
            method := "GET", headers := [], bodyBytes := [] }).nextErr = some 7 ∧
      (expressMiddleware (E := Nat) (C := Nat)
          (some fun _ => Except.error 7)
          (fun _ _ => Except.ok ⟨200, ⟨[]⟩, .absent⟩)
          { protocol := "http", hostHeader := "example.com", url := "/"
            method := "GET", headers := [], bodyBytes := [] }).sendCalled = false :=
  (expressMiddleware_error_paths (E := Nat) (C := Nat)
      (some fun _ => Except.error 7)
      (fun _ _ => Except.ok ⟨200, ⟨[]⟩, .absent⟩)
      { protocol := "http", hostHeader := "example.com", url := "/"
        method := "GET", headers := [], bodyBytes := [] }).1 7 rfl

/-- C10: the middleware (a total function in this embedding, matching the
source whose whole body is wrapped in `try/catch`) invokes `next` only
when some caught step actually failed, and on a successfully sent
response `next` is never called. -/
theorem expressMiddleware_next_only_on_error {E C : Type}
    (g : Option (ExpressRequest → Except E C))
    (h : NodeRequest → Option C → Except E (NodeResponse E))
    (req : ExpressRequest) :
    ((expressMiddleware g h req).nextErr.isSome = true →
        (∃ e, loadContextResult g req = .error e) ∨
          ∃ ctx e, loadContextResult g req = .ok ctx ∧
            h (createRemixRequest req) ctx = .error e) ∧
      (∀ ctx resp, loadContextResult g req = .ok ctx →
          h (createRemixRequest req) ctx = .ok resp →
          (expressMiddleware g h req).nextErr = none ∧
            (expressMiddleware g h req).sendCalled = true ∧
            (expressMiddleware g h req).events = sendRemixResponse resp) := by
  constructor
  · intro hsome
    cases hctx : loadContextResult g req with
    | error e => exact Or.inl ⟨e, rfl⟩
    | ok ctx =>
      cases hh : h (createRemixRequest req) ctx with
      | error e => exact Or.inr ⟨ctx, e, rfl, hh⟩
      | ok resp => simp [expressMiddleware, hctx, hh] at hsome
  · intro ctx resp hctx hh
    simp [expressMiddleware, hctx, hh]

theorem expressMiddleware_next_only_on_error_witness :
    (expressMiddleware (E := Nat) (C := Nat)
          none
          (fun _ _ => Except.ok ⟨200, ⟨[]⟩, .absent⟩)
          { protocol := "http", hostHeader := "example.com", url := "/"
            method := "GET", headers := [], bodyBytes := [] }).nextErr = none ∧
      (expressMiddleware (E := Nat) (C := Nat)
          none
          (fun _ _ => Except.ok ⟨200, ⟨[]⟩, .absent⟩)
          { protocol := "http", hostHeader := "example.com", url := "/"
            method := "GET", headers := [], bodyBytes := [] }).sendCalled = true ∧
      (expressMiddleware (E := Nat) (C := Nat)
          none
          (fun _ _ => Except.ok ⟨200, ⟨[]⟩, .absent⟩)
          { protocol := "http", hostHeader := "example.com", url := "/"
            method := "GET", headers := [], bodyBytes := [] }).events =
        sendRemixResponse (E := Nat) ⟨200, ⟨[]⟩, .absent⟩ :=
  (expressMiddleware_next_only_on_error (E := Nat) (C := Nat)
      none
      (fun _ _ => Except.ok ⟨200, ⟨[]⟩, .absent⟩)
      { protocol := "http", hostHeader := "example.com", url := "/"
        method := "GET", headers := [], bodyBytes := [] }).2
    none ⟨200, ⟨[]⟩, .absent⟩ rfl rfl

/-- C3: for a host header collection (with the unique names a JavaScript
object guarantees) containing a multi-value entry `(name, vs)`,
translating it with `createRemixHeaders` and appending the result back
onto a host response through the send path yields, under `name`, exactly
the ordered list `vs` — same order and multiplicity. -/
theorem headers_roundtrip {E : Type} (hs : List (String × HostHeaderValue))
    (name : String) (vs : List String)
    (hnodup : (hs.map (·.1)).Nodup)
    (hmem : (name, HostHeaderValue.multi vs) ∈ hs)
    (status : Nat) (body : NodeBody E) :
    valuesUnder name
        (headerLinesOf (sendRemixResponse ⟨status, createRemixHeaders hs, body⟩)) = vs := by
  rw [headerLinesOf_send]
  show valuesUnder name ((createRemixHeaders hs).raw.flatMap fun kv =>
    kv.2.map fun v => (kv.1, v)) = vs
  rw [valuesUnder_raw, createRemixHeaders_raw hs hnodup]
  exact headerLines_multi hs name vs hnodup hmem

theorem headers_roundtrip_witness :
    (([("accept", HostHeaderValue.multi ["text/html", "application/json"])].map
          (fun kv => kv.1)).Nodup) ∧
      valuesUnder "accept"
          (headerLinesOf
            (sendRemixResponse (E := Unit)
              ⟨200,
                createRemixHeaders
                  [("accept", HostHeaderValue.multi ["text/html", "application/json"])],
                .absent⟩)) = ["text/html", "application/json"] :=
  ⟨by simp,
    headers_roundtrip (E := Unit)
      [("accept", HostHeaderValue.multi ["text/html", "application/json"])]
      "accept" ["text/html", "application/json"]
      (by simp) (by simp) 200 .absent⟩

/-- C6 as frozen is refuted: it claims, besides the skipping of falsy
entries, that "no empty header value is ever emitted"; but an array entry
containing an empty string is truthy, so each of its elements — the empty
string included — is appended.  `{"x-test": [""]}` produces the header
line `x-test: `. -/
theorem falsy_skip_counterexample :
    ¬ ∀ hs : List (String × HostHeaderValue), (hs.map (·.1)).Nodup →
        (∀ kv ∈ hs, kv.2.isFalsy = true → kv.1 ∉ rawKeys (createRemixHeaders hs).raw) ∧
          ∀ e ∈ (createRemixHeaders hs).raw, ∀ v ∈ e.2, v ≠ "" := by
  intro hcl
  have h2 := (hcl [("x-test", .multi [""])] (by simp)).2
  have hmem : ("x-test", [""]) ∈ (createRemixHeaders [("x-test", .multi [""])]).raw := by
    show ("x-test", [""]) ∈ [("x-test", [""])]
    simp
  exact h2 ("x-test", [""]) hmem "" (by simp) rfl

/-- C6 amended: every host header entry whose value is falsy (`undefined`
or the empty string) is skipped entirely by `createRemixHeaders`, so
(names being unique, as in a JavaScript object) the standardized header
set contains no header line for that entry's name; empty strings occurring
inside an array value, however, are appended as empty header values. -/
theorem falsy_entry_no_line (hs : List (String × HostHeaderValue))
    (hnodup : (hs.map (·.1)).Nodup) (k : String) (v : HostHeaderValue)
    (hmem : (k, v) ∈ hs) (hfalsy : v.isFalsy = true) :
    k ∉ rawKeys (createRemixHeaders hs).raw := by
  rw [createRemixHeaders_raw hs hnodup]
  intro hk
  rw [rawKeys, List.mem_map] at hk
  obtain ⟨p, hp, hpk⟩ := hk
  rw [List.mem_filterMap] at hp
  obtain ⟨kv, hkv, he⟩ := hp
  have hkey : kv.1 = k := by rw [← entryRaw_key he, hpk]
  have hkv' : (k, kv.2) ∈ hs := by
    have : kv = (k, kv.2) := by rw [← hkey]
    rw [← this]
    exact hkv
  have hsame : kv.2 = v := key_unique hnodup hkv' hmem
  have he' : entryRaw (k, v) = some p := by
    rw [← hsame, ← hkey]
    exact he
  cases v with
  | absent => simp [entryRaw] at he'
  | single s =>
    have hs' : s = "" := by simpa [HostHeaderValue.isFalsy] using hfalsy
    simp [entryRaw, hs'] at he'
  | multi vs => simp [HostHeaderValue.isFalsy] at hfalsy

theorem falsy_entry_no_line_witness :
    (([("x-empty", HostHeaderValue.single ""), ("host", HostHeaderValue.single "example.com")].map
          (fun kv => kv.1)).Nodup) ∧
      (HostHeaderValue.single "").isFalsy = true ∧
      "x-empty" ∉ rawKeys
          (createRemixHeaders
            [("x-empty", HostHeaderValue.single ""),
              ("host", HostHeaderValue.single "example.com")]).raw :=
  ⟨by simp, rfl,
    falsy_entry_no_line
      [("x-empty", HostHeaderValue.single ""), ("host", HostHeaderValue.single "example.com")]
      (by simp) "x-empty" (HostHeaderValue.single "") (by simp) rfl⟩

/-- C7 as frozen is refuted: a mid-flight failure of the response body
stream is not forwarded to `next`.  The middleware's `try/catch` has
already returned when piping is underway, and `response.body.pipe(res)`
installs no error handler; concretely, a run whose response body stream
errors with `5` calls `next` with nothing. -/
theorem streamError_forwarded_counterexample :
    ¬ ∀ (g : Option (ExpressRequest → Except Nat Nat))
        (h : NodeRequest → Option Nat → Except Nat (NodeResponse Nat))
        (req : ExpressRequest) (e : Nat),
        (expressMiddleware g h req).streamErr = some e →
        (expressMiddleware g h req).nextErr = some e := by
  intro hcl
  have := hcl none (fun _ _ => Except.ok ⟨200, ⟨[]⟩, .stream [[104]] (some 5)⟩)
      { protocol := "http", hostHeader := "example.com", url := "/", method := "GET",
        headers := [], bodyBytes := [] } 5 rfl
  simp [expressMiddleware, loadContextResult, bodyStreamError] at this

/-- C7 amended: when the load-context step and the runtime both succeed
and the response body is a stream that fails mid-flight, the stream error
surfaces unhandled: `next` is never called, the already-delivered chunks
have been written, and the host response is never terminated — the error
is neither forwarded nor recovered by the adapter. -/
theorem streamError_unhandled {E C : Type}
    (g : Option (ExpressRequest → Except E C))
    (h : NodeRequest → Option C → Except E (NodeResponse E))
    (req : ExpressRequest) (ctx : Option C) (resp : NodeResponse E)
    (chunks : List (List Nat)) (e : E)
    (hctx : loadContextResult g req = .ok ctx)
    (hh : h (createRemixRequest req) ctx = .ok resp)
    (hbody : resp.body = .stream chunks (some e)) :
    (expressMiddleware g h req).streamErr = some e ∧
      (expressMiddleware g h req).nextErr = none ∧
      (expressMiddleware g h req).sendCalled = true ∧
      HostEvent.endResponse ∉ sendBody resp.body := by
  refine ⟨?_, ?_, ?_, ?_⟩
  · simp [expressMiddleware, hctx, hh, bodyStreamError, hbody]
  · simp [expressMiddleware, hctx, hh]
  · simp [expressMiddleware, hctx, hh]
  · rw [hbody]
    simp [sendBody]

theorem streamError_unhandled_witness :
    (expressMiddleware (E := Nat) (C := Nat)
          none
          (fun _ _ => Except.ok ⟨200, ⟨[]⟩, .stream [[104]] (some 5)⟩)
          { protocol := "http", hostHeader := "example.com", url := "/"
            method := "GET", headers := [], bodyBytes := [] }).streamErr = some 5 ∧
      (expressMiddleware (E := Nat) (C := Nat)
          none
          (fun _ _ => Except.ok ⟨200, ⟨[]⟩, .stream [[104]] (some 5)⟩)
          { protocol := "http", hostHeader := "example.com", url := "/"
            method := "GET", headers := [], bodyBytes := [] }).nextErr = none ∧
      (expressMiddleware (E := Nat) (C := Nat)
          none
          (fun _ _ => Except.ok ⟨200, ⟨[]⟩, .stream [[104]] (some 5)⟩)
          { protocol := "http", hostHeader := "example.com", url := "/"
            method := "GET", headers := [], bodyBytes := [] }).sendCalled = true ∧
      HostEvent.endResponse ∉
        sendBody (NodeBody.stream (E := Nat) [[104]] (some 5)) :=
  streamError_unhandled (E := Nat) (C := Nat)
    none
    (fun _ _ => Except.ok ⟨200, ⟨[]⟩, .stream [[104]] (some 5)⟩)
    { protocol := "http", hostHeader := "example.com", url := "/"
      method := "GET", headers := [], bodyBytes := [] }
    none ⟨200, ⟨[]⟩, .stream [[104]] (some 5)⟩ [[104]] 5 rfl rfl rfl

end RemixExpress
